import Mathlib

/-!
Shallow embedding of the console file explorer (`src/Main.cpp`, C++17
`std::filesystem`).  Paths are modelled POSIX-style: an absolute path is a
list of name components (the root `/` is the empty list); a user-supplied
path carries an `absolute` flag, mirroring `fs::path::is_absolute`.  The
file system itself is modelled as a finite association list from canonical
absolute paths to the kind of node stored there, and the `std::filesystem`
primitives the program calls (`exists`, `is_directory`, `remove`,
`remove_all`, `create_directories`, `copy`, `rename`, `canonical`) are
given their documented semantics on that model.  The recursive name search
is modelled separately over a directory tree, mirroring
`recursive_directory_iterator` with `skip_permission_denied`.
-/

/-- A path as the program manipulates it: `absolute` mirrors
`fs::path::is_absolute` (POSIX: the string starts with `/`), `components`
the sequence of non-empty name components. -/
structure UPath where
  absolute : Bool
  components : List String
  deriving Repr, DecidableEq

/-- The POSIX filesystem root `/`. -/
def rootPath : UPath := ⟨true, []⟩

/-- Split a character sequence at `/` separators, keeping the non-empty
chunks (the components of a POSIX path string). -/
def splitSlash (cs : List Char) (acc : List Char) : List String :=
  match cs with
  | [] => if acc.isEmpty then [] else [String.mk acc.reverse]
  | c :: rest =>
    if c = '/' then
      if acc.isEmpty then splitSlash rest []
      else String.mk acc.reverse :: splitSlash rest []
    else splitSlash rest (c :: acc)

/-- `fs::path::is_absolute` on POSIX: the string starts with `/`. -/
def isAbsolutePath (s : String) : Bool :=
  match s.data with
  | c :: _ => c = '/'
  | [] => false

/-- `fs::path` parsing of a user-typed line (POSIX generic format):
absolute iff it starts with `/`; components are the non-empty chunks
between separators. -/
def parsePath (s : String) : UPath :=
  ⟨isAbsolutePath s, splitSlash s.data []⟩

/-- `p.is_absolute() ? p : (cur / p)` from `main`: resolve a user path
against the current directory (an absolute component list). -/
def resolve (cur : List String) (p : UPath) : List String :=
  if p.absolute then p.components else cur ++ p.components

/-- Lexical normalisation of an absolute component list: drop `.` and
empty components, resolve `..` against the accumulated prefix (at the
root, `/..` stays the root).  In a model without symbolic links this is
exactly what `fs::canonical` and OS path resolution compute. -/
def canon (cs : List String) : List String :=
  cs.foldl (fun acc c =>
    if c = "." ∨ c = "" then acc
    else if c = ".." then acc.dropLast
    else acc ++ [c]) []

/-- `fs::path::parent_path`: remove the final component; the parent of
the root is the root, the parent of a single relative component is the
empty path. -/
def parent_path (p : UPath) : UPath :=
  ⟨p.absolute, p.components.dropLast⟩

/-- `fs::path::empty()`. -/
def UPath.isEmptyPath (p : UPath) : Bool :=
  !p.absolute && p.components.isEmpty

/-- `fs::path::has_parent_path`: the parent path is non-empty. -/
def has_parent_path (p : UPath) : Bool :=
  !(parent_path p).isEmptyPath

/-- The `"3"` branch of `main`:
`if (cur.has_parent_path()) cur = cur.parent_path();`. -/
def goUp (p : UPath) : UPath :=
  if has_parent_path p then parent_path p else p

/-! ## Listing: permission formatting and entry classification -/

/-- `fs::perms` as a permission bit mask (POSIX layout: owner `rwx` =
`0o400/0o200/0o100`, group = `0o40/0o20/0o10`, others = `0o4/0o2/0o1`). -/
abbrev Perms := Nat

/-- The lambda `check` inside `perms_to_string`: the given character when
the bit is set in the mask, `-` otherwise. -/
def permCheck (p : Perms) (bit : Nat) (c : Char) : Char :=
  if (p &&& bit) ≠ 0 then c else '-'

/-- `perms_to_string`: the nine owner/group/others `rwx` characters
appended in order. -/
def perms_to_string (p : Perms) : String :=
  String.mk [permCheck p 256 'r', permCheck p 128 'w', permCheck p 64 'x',
             permCheck p 32 'r', permCheck p 16 'w', permCheck p 8 'x',
             permCheck p 4 'r', permCheck p 2 'w', permCheck p 1 'x']

/-- The initial value of `perm` in `list_dir` (line 64), printed when the
`fs::status` query throws: `std::string perm = "----------";`. -/
def fallbackPerm : String := "----------"

/-- The PERMS column value of one listing row: `perms_to_string` of the
queried permissions, or the untouched fallback when the metadata query
failed. -/
def permColumn (st : Option Perms) : String :=
  match st with
  | some p => perms_to_string p
  | none => fallbackPerm

/-- What kind of file-system object a path resolves to. -/
inductive Kind where
  | file
  | dir
  | symlink
  deriving Repr, DecidableEq

/-- One `directory_entry` as `list_dir` inspects it: whether the entry
itself is a symbolic link (`entry.is_symlink()`), and the kind of the
object its status resolves to after following symlinks (`none` for a
dangling link).  `entry.is_directory()` follows symlinks, so it looks at
`resolvedKind`. -/
structure Entry where
  symlink : Bool
  resolvedKind : Option Kind
  deriving Repr, DecidableEq

/-- `directory_entry::is_directory()` (follows symlinks). -/
def Entry.is_directory (e : Entry) : Bool :=
  e.resolvedKind = some Kind.dir

/-- `directory_entry::is_symlink()`. -/
def Entry.is_symlink (e : Entry) : Bool :=
  e.symlink

/-- Line 63 of `list_dir`:
`entry.is_directory() ? "[DIR]" : (entry.is_symlink() ? "[LNK]" : "[FILE]")`. -/
def entryType (e : Entry) : String :=
  if e.is_directory then "[DIR]"
  else if e.is_symlink then "[LNK]"
  else "[FILE]"

/-! ## The file system as a finite map from canonical paths to kinds -/

/-- The file-system state: an association list from canonical absolute
component lists to the kind of node stored there. -/
structure FS where
  nodes : List (List String × Kind)
  deriving Repr, DecidableEq

/-- OS path resolution of a query: the kind stored at the canonical form
of the path, if any. -/
def FS.lookupPath (fs : FS) (p : List String) : Option Kind :=
  (fs.nodes.find? (fun e => e.1 == canon p)).map (fun e => e.2)

/-- `fs::exists`. -/
def FS.pathExists (fs : FS) (p : List String) : Bool :=
  (fs.lookupPath p).isSome

/-- `fs::is_directory` (in this link-target-free model, the stored kind
is `dir`). -/
def FS.isDir (fs : FS) (p : List String) : Bool :=
  fs.lookupPath p = some Kind.dir

/-- `fs::remove_all`: delete the node at `p` together with everything
below it, returning the new state and the number of files and directories
deleted. -/
def remove_all (fs : FS) (p : List String) : FS × Nat :=
  let q := canon p
  (⟨fs.nodes.filter (fun e => !(q.isPrefixOf e.1))⟩,
   (fs.nodes.filter (fun e => q.isPrefixOf e.1)).length)

/-- `fs::remove`: delete the single node at `p` if it exists, returning
whether anything was deleted. -/
def fsRemove (fs : FS) (p : List String) : FS × Bool :=
  let q := canon p
  if (fs.nodes.find? (fun e => e.1 == q)).isSome then
    (⟨fs.nodes.filter (fun e => !(e.1 == q))⟩, true)
  else (fs, false)

/-- Outcome of `delete_path`, as printed by the function. -/
inductive DeleteResult where
  | notFound
  | deleted (count : Nat)
  deriving Repr, DecidableEq

/-- `delete_path` (lines 117–125): refuse when the path does not exist;
`remove_all` for a directory, `remove` (count 1 or 0) otherwise. -/
def delete_path (fs : FS) (p : List String) : FS × DeleteResult :=
  if fs.pathExists p then
    if fs.isDir p then
      let r := remove_all fs p
      (r.1, DeleteResult.deleted r.2)
    else
      let r := fsRemove fs p
      (r.1, DeleteResult.deleted (if r.2 then 1 else 0))
  else (fs, DeleteResult.notFound)

/-- Outcome of `create_file` / `create_directory_path`, as printed. -/
inductive CreateResult where
  | alreadyExists
  | failed
  | created (p : List String)
  deriving Repr, DecidableEq

/-- `create_file` (lines 95–105): refuse when the path exists; otherwise
open an `std::ofstream` on the path, which creates an empty regular file
when the parent directory exists and fails (creating nothing) when it
does not. -/
def create_file (fs : FS) (p : List String) : FS × CreateResult :=
  if fs.pathExists p then (fs, CreateResult.alreadyExists)
  else
    let q := canon p
    if fs.isDir q.dropLast then
      (⟨(q, Kind.file) :: fs.nodes⟩, CreateResult.created p)
    else (fs, CreateResult.failed)

/-- `create_directory_path` (lines 107–115): refuse when the path exists;
otherwise `fs::create_directories` makes the directory and every missing
intermediate directory. -/
def create_directory_path (fs : FS) (p : List String) : FS × CreateResult :=
  if fs.pathExists p then (fs, CreateResult.alreadyExists)
  else
    let q := canon p
    let newDirs := (q.inits.filter
      (fun pre => !pre.isEmpty && !(fs.pathExists pre))).map (fun pre => (pre, Kind.dir))
    (⟨newDirs ++ fs.nodes⟩, CreateResult.created p)

/-- Outcome of `copy_path` / `move_path`, as printed. -/
inductive TransferResult where
  | notFound
  | done (dst : List String)
  deriving Repr, DecidableEq

/-- `copy_path` (lines 127–139): refuse when the source does not exist;
recursive overwriting copy for a directory, single-file overwriting copy
otherwise. -/
def copy_path (fs : FS) (src dst : List String) : FS × TransferResult :=
  if ¬ fs.pathExists src then (fs, TransferResult.notFound)
  else
    let s := canon src
    let d := canon dst
    let copied :=
      if fs.isDir src then
        fs.nodes.filterMap (fun e =>
          if s.isPrefixOf e.1 then some (d ++ e.1.drop s.length, e.2) else none)
      else [(d, (fs.lookupPath src).getD Kind.file)]
    (⟨copied ++ fs.nodes.filter (fun e => !(copied.any (fun c => c.1 == e.1)))⟩,
     TransferResult.done dst)

/-- `move_path` (lines 141–148): `fs::rename`, relocating the whole
subtree rooted at the source; an error when the source does not exist. -/
def move_path (fs : FS) (src dst : List String) : FS × TransferResult :=
  if ¬ fs.pathExists src then (fs, TransferResult.notFound)
  else
    let s := canon src
    let d := canon dst
    let moved := fs.nodes.filterMap (fun e =>
      if s.isPrefixOf e.1 then some (d ++ e.1.drop s.length, e.2) else none)
    let kept := fs.nodes.filter (fun e =>
      !(s.isPrefixOf e.1) && !(moved.any (fun c => c.1 == e.1)))
    (⟨moved ++ kept⟩, TransferResult.done dst)

/-- Outcome of the enter-directory branch. -/
inductive EnterResult where
  | ok
  | notADirectory
  deriving Repr, DecidableEq

/-- The `"2"` branch of `main` (lines 200–206): resolve the input against
the current directory, and move there (canonicalised) only when the
candidate exists and is a directory. -/
def enterDirectory (fs : FS) (cur : List String) (inp : UPath) :
    List String × EnterResult :=
  let cand := resolve cur inp
  if fs.pathExists cand && fs.isDir cand then (canon cand, EnterResult.ok)
  else (cur, EnterResult.notADirectory)

/-! ## The command loop of `main` -/

/-- The state the loop carries between iterations: the current directory
(always an absolute path) and the file system it acts on. -/
structure LoopState where
  cur : UPath
  fs : FS
  deriving Repr, DecidableEq

/-- `std::getline` on the remaining input lines: at end-of-input it fails
and leaves the string empty, which every caller treats like an empty
line. -/
def line1 (inputs : List String) : String :=
  inputs.headD ""

/-- The second line read in one iteration (for the copy and move
commands). -/
def line2 (inputs : List String) : String :=
  (inputs.drop 1).headD ""

/-- A single-prompt mutating command (`create_file`,
`create_directory_path`, `delete_path`): `input_path` cancels on an empty
line, otherwise the path is resolved against the current directory and
the operation runs.  One input line is consumed. -/
def withOnePath (st : LoopState) (inputs : List String)
    (op : FS → List String → FS) : LoopState × Nat :=
  let s := line1 inputs
  if s = "" then (st, 1)
  else ({ st with fs := op st.fs (resolve st.cur.components (parsePath s)) }, 1)

/-- A two-prompt mutating command (`copy_path`, `move_path`):
`input_path(...) && input_path(...)` short-circuits, so an empty source
line consumes one line and cancels, an empty destination line consumes
two and cancels. -/
def withTwoPaths (st : LoopState) (inputs : List String)
    (op : FS → List String → List String → FS) : LoopState × Nat :=
  let s := line1 inputs
  if s = "" then (st, 1)
  else
    let t := line2 inputs
    if t = "" then (st, 2)
    else
      ({ st with fs := op st.fs (resolve st.cur.components (parsePath s))
                         (resolve st.cur.components (parsePath t)) }, 2)

/-- One iteration of the `while (true)` loop of `main`, after the menu
choice has been read: `none` means the loop breaks (the `"0"` branch);
otherwise the new state and the number of further input lines consumed.
Listing and search output is not part of the state. -/
def stepCommand (st : LoopState) (choice : String) (inputs : List String) :
    Option (LoopState × Nat) :=
  if choice = "1" then some (st, 0)
  else if choice = "2" then
    let s := line1 inputs
    if s = "" then some (st, 1)
    else
      let r := enterDirectory st.fs st.cur.components (parsePath s)
      some ({ st with cur := ⟨true, r.1⟩ }, 1)
  else if choice = "3" then
    some ({ st with cur := goUp st.cur }, 0)
  else if choice = "4" then
    some (withOnePath st inputs (fun fs p => (create_file fs p).1))
  else if choice = "5" then
    some (withOnePath st inputs (fun fs p => (create_directory_path fs p).1))
  else if choice = "6" then
    some (withOnePath st inputs (fun fs p => (delete_path fs p).1))
  else if choice = "7" then
    some (withTwoPaths st inputs (fun fs s d => (copy_path fs s d).1))
  else if choice = "8" then
    some (withTwoPaths st inputs (fun fs s d => (move_path fs s d).1))
  else if choice = "9" then
    some (st, 1)
  else if choice = "0" then none
  else some (st, 0)

/-- The whole loop of `main` over a finite input stream, returning the
process exit code: `getline` failing at end-of-input breaks the loop, the
`"0"` command breaks the loop, and `main` then returns 0. -/
def runLoop (st : LoopState) (inputs : List String) : Nat :=
  match inputs with
  | [] => 0
  | choice :: rest =>
    match stepCommand st choice rest with
    | none => 0
    | some (st2, k) => runLoop st2 (rest.drop k)
termination_by inputs.length
decreasing_by
  simp [List.length_drop]
  omega

/-! ## Recursive search over a directory tree

`search_recursive` (lines 150–162) walks a
`recursive_directory_iterator` constructed with
`skip_permission_denied`: every entry of every readable directory is
visited depth-first, a directory that cannot be read is skipped (its own
name was still visited as an entry of its parent), and an entry is
printed when its final path component contains the needle as a
case-sensitive substring. -/

mutual
/-- A file-system node for the search model: a regular file, a symbolic
link, or a directory with a readability flag (can its entries be
listed?) and its named children. -/
inductive FTree where
  | file : FTree
  | link : FTree
  | dir : Bool → FForest → FTree
  deriving Repr, DecidableEq

/-- The children of a directory: a list of (name, subtree) pairs. -/
inductive FForest where
  | nil : FForest
  | cons : String → FTree → FForest → FForest
  deriving Repr, DecidableEq
end

/-- `s.find(needle) != std::string::npos`: case-sensitive substring
containment. -/
def containsSub (hay needle : String) : Bool :=
  decide (needle.data <:+: hay.data)

mutual
/-- The paths `search_recursive` prints when the iterator stands on the
tree `t` reached via path `pre`: the entries of a readable directory are
visited in order; files, links and unreadable directories contribute
nothing below themselves. -/
def searchTree (needle : String) (pre : List String) : FTree → List (List String)
  | FTree.dir true f => searchForest needle pre f
  | _ => []

/-- Depth-first visit of a readable directory's children: each child is
tested against the needle, then its subtree is walked. -/
def searchForest (needle : String) (pre : List String) : FForest → List (List String)
  | FForest.nil => []
  | FForest.cons name t rest =>
    (if containsSub name needle then [pre ++ [name]] else []) ++
    searchTree needle (pre ++ [name]) t ++
    searchForest needle pre rest
end

/-- Look a name up among a directory's children. -/
def lookupForest (f : FForest) (name : String) : Option FTree :=
  match f with
  | FForest.nil => none
  | FForest.cons n t rest => if n = name then some t else lookupForest rest name

mutual
/-- The iterator visits the entry at relative path `rel` below the tree
`t`: `t` must be a readable directory, the head component must be one of
its children, and any deeper components must be visited below that
child. -/
def visitedT (t : FTree) : List String → Bool
  | [] => false
  | n :: rest =>
    match t with
    | FTree.dir true f => visitedF f (n :: rest)
    | _ => false

/-- `visitedT`, phrased on a readable directory's children. -/
def visitedF (f : FForest) : List String → Bool
  | [] => false
  | n :: rest =>
    match lookupForest f n with
    | some t => rest.isEmpty || visitedT t rest
    | none => false
end

/-- The names of a directory's children, in order. -/
def forestNames : FForest → List String
  | FForest.nil => []
  | FForest.cons n _ rest => n :: forestNames rest

mutual
/-- Every directory in the tree has pairwise-distinct child names (the
invariant every real file system guarantees). -/
def nodupNamesT : FTree → Bool
  | FTree.dir _ f => nodupNamesF f
  | _ => true

/-- `nodupNamesT` on a child list: each name is absent from the rest of
the list and every subtree satisfies the invariant. -/
def nodupNamesF : FForest → Bool
  | FForest.nil => true
  | FForest.cons n t rest =>
    !(decide (n ∈ forestNames rest)) && nodupNamesT t && nodupNamesF rest
end

/-- The tree of the spec's search example: a readable root with children
`x/abc.txt`, `y/zzabc` and `z/noMatch`. -/
def exampleTree : FTree :=
  FTree.dir true
    (FForest.cons "x" (FTree.dir true (FForest.cons "abc.txt" FTree.file FForest.nil))
    (FForest.cons "y" (FTree.dir true (FForest.cons "zzabc" FTree.file FForest.nil))
    (FForest.cons "z" (FTree.dir true (FForest.cons "noMatch" FTree.file FForest.nil))
      FForest.nil)))

/-! ## Sample values used by witnesses -/

/-- A small concrete file system: the root, a directory `/a` holding one
file, and a regular file `/b`. -/
def sampleFS : FS :=
  ⟨[([], Kind.dir), (["a"], Kind.dir), (["a", "f"], Kind.file), (["b"], Kind.file)]⟩

/-- A concrete loop state sitting at the root of `sampleFS`. -/
def sampleState : LoopState := ⟨rootPath, sampleFS⟩

/-! ## Theorems -/

/-- Auxiliary: each character `perms_to_string` emits is either the
requested letter or a dash. -/
theorem permCheck_cases (p bit : Nat) (c : Char) :
    permCheck p bit c = c ∨ permCheck p bit c = '-' := by
  unfold permCheck
  split
  · exact Or.inl rfl
  · exact Or.inr rfl

/-- Auxiliary: the raw character list behind `perms_to_string`. -/
theorem perms_to_string_data (p : Perms) :
    (perms_to_string p).data =
      [permCheck p 256 'r', permCheck p 128 'w', permCheck p 64 'x',
       permCheck p 32 'r', permCheck p 16 'w', permCheck p 8 'x',
       permCheck p 4 'r', permCheck p 2 'w', permCheck p 1 'x'] := rfl

/-- C1 (counterexample): a symbolic link whose target is a directory is
displayed `[DIR]`, not `[LNK]`, because `entry.is_directory()` follows
symlinks and is tested first. -/
theorem c1_symlink_dir_counterexample :
    (Entry.mk true (some Kind.dir)).is_symlink = true ∧
    entryType (Entry.mk true (some Kind.dir)) = "[DIR]" ∧
    entryType (Entry.mk true (some Kind.dir)) ≠ "[LNK]" := by
  refine ⟨rfl, rfl, ?_⟩
  decide

/-- C1 (amended): an entry is displayed `[DIR]` exactly when its
followed status is a directory (so a symlink targeting a directory is
`[DIR]`); `[LNK]` exactly when it is a symlink whose followed status is
not a directory; `[FILE]` exactly when it is neither. -/
theorem c1_entry_classification (e : Entry) :
    (entryType e = "[DIR]" ↔ e.resolvedKind = some Kind.dir) ∧
    (entryType e = "[LNK]" ↔ e.symlink = true ∧ e.resolvedKind ≠ some Kind.dir) ∧
    (entryType e = "[FILE]" ↔ e.symlink = false ∧ e.resolvedKind ≠ some Kind.dir) := by
  obtain ⟨s, k⟩ := e
  rcases k with _ | k
  · cases s <;> decide
  · cases k <;> cases s <;> decide

/-- C2 (counterexample): the PERMS value printed when the metadata query
fails is the 10-character string `"----------"`, not a 9-character
string. -/
theorem c2_placeholder_counterexample :
    (permColumn none).length ≠ 9 ∧ (permColumn none).length = 10 := by
  refine ⟨?_, rfl⟩
  decide

/-- C2 (amended): a successful permission query yields a 9-character
string over `{r,w,x,-}` (an rwx triad per owner/group/others), while a
failed query prints the all-dashes placeholder, which is a 10-character
string of dashes. -/
theorem c2_perm_column (p : Perms) :
    (perms_to_string p).length = 9 ∧
    ((perms_to_string p).data.all
      (fun c => c == 'r' || c == 'w' || c == 'x' || c == '-')) = true ∧
    permColumn (some p) = perms_to_string p ∧
    permColumn none = fallbackPerm ∧
    fallbackPerm.length = 10 ∧
    (fallbackPerm.data.all (fun c => c == '-')) = true := by
  have h : ∀ bit c, c = 'r' ∨ c = 'w' ∨ c = 'x' →
      (permCheck p bit c == 'r' || permCheck p bit c == 'w' ||
       permCheck p bit c == 'x' || permCheck p bit c == '-') = true := by
    intro bit c hc
    rcases permCheck_cases p bit c with h | h <;> rw [h]
    · rcases hc with rfl | rfl | rfl <;> rfl
    · rfl
  refine ⟨rfl, ?_, rfl, rfl, rfl, by decide⟩
  rw [List.all_eq_true]
  intro c hc
  rw [perms_to_string_data] at hc
  simp only [List.mem_cons, List.not_mem_nil, or_false] at hc
  rcases hc with rfl | rfl | rfl | rfl | rfl | rfl | rfl | rfl | rfl
  · exact h 256 'r' (Or.inl rfl)
  · exact h 128 'w' (Or.inr (Or.inl rfl))
  · exact h 64 'x' (Or.inr (Or.inr rfl))
  · exact h 32 'r' (Or.inl rfl)
  · exact h 16 'w' (Or.inr (Or.inl rfl))
  · exact h 8 'x' (Or.inr (Or.inr rfl))
  · exact h 4 'r' (Or.inl rfl)
  · exact h 2 'w' (Or.inr (Or.inl rfl))
  · exact h 1 'x' (Or.inr (Or.inr rfl))

/-- C3: entering an existing non-directory reports "not a directory" and
leaves the current directory unchanged; entering an existing directory
moves to the canonical form of the candidate obtained by resolving the
input against the current directory. -/
theorem c3_enterDirectory (fs : FS) (cur : List String) (inp : UPath) :
    (fs.pathExists (resolve cur inp) = true →
      fs.isDir (resolve cur inp) = false →
      enterDirectory fs cur inp = (cur, EnterResult.notADirectory)) ∧
    (fs.pathExists (resolve cur inp) = true →
      fs.isDir (resolve cur inp) = true →
      enterDirectory fs cur inp = (canon (resolve cur inp), EnterResult.ok)) := by
  constructor
  · intro h1 h2
    simp [enterDirectory, h1, h2]
  · intro h1 h2
    simp [enterDirectory, h1, h2]

/-- C3 (witness): in `sampleFS`, entering `/b` (a regular file) from the
root fails and stays put, and entering `a` succeeds and lands in `/a`. -/
theorem c3_witness :
    sampleFS.pathExists (resolve [] (parsePath "b")) = true ∧
    sampleFS.isDir (resolve [] (parsePath "b")) = false ∧
    enterDirectory sampleFS [] (parsePath "b") = ([], EnterResult.notADirectory) ∧
    sampleFS.isDir (resolve [] (parsePath "a")) = true ∧
    enterDirectory sampleFS [] (parsePath "a") =
      (canon (resolve [] (parsePath "a")), EnterResult.ok) :=
  ⟨rfl, rfl, (c3_enterDirectory sampleFS [] (parsePath "b")).1 rfl rfl,
   rfl, (c3_enterDirectory sampleFS [] (parsePath "a")).2 rfl rfl⟩

/-- C4: `goUp` at the filesystem root is a no-op (and no error is
involved: the branch prints nothing), and on any absolute path — the only
paths CurrentDirectory ranges over — `goUp` returns the parent path. -/
theorem c4_goUp (p : UPath) (h : p.absolute = true) :
    goUp rootPath = rootPath ∧ goUp p = parent_path p := by
  constructor
  · rfl
  · obtain ⟨a, cs⟩ := p
    subst h
    simp [goUp, has_parent_path, parent_path, UPath.isEmptyPath]

/-- C5: `delete_path` refuses with "does not exist" (changing nothing)
when the path is absent; on a directory it removes the whole subtree —
exactly the stored nodes below the path — and reports their number; on a
file or link it removes that single node and reports count 1. -/
theorem c5_delete_path (fs : FS) (p : List String) :
    (fs.pathExists p = false → delete_path fs p = (fs, DeleteResult.notFound)) ∧
    (fs.pathExists p = true → fs.isDir p = true →
      (delete_path fs p).2 =
        DeleteResult.deleted
          ((fs.nodes.filter (fun e => (canon p).isPrefixOf e.1)).length) ∧
      ∀ e, e ∈ (delete_path fs p).1.nodes ↔
        e ∈ fs.nodes ∧ (canon p).isPrefixOf e.1 = false) ∧
    (fs.pathExists p = true → fs.isDir p = false →
      (delete_path fs p).2 = DeleteResult.deleted 1 ∧
      ∀ e, e ∈ (delete_path fs p).1.nodes ↔ e ∈ fs.nodes ∧ e.1 ≠ canon p) := by
  refine ⟨?_, ?_, ?_⟩
  · intro h
    simp [delete_path, h]
  · intro h1 h2
    constructor
    · simp [delete_path, remove_all, h1, h2]
    · intro e
      simp [delete_path, remove_all, h1, h2, List.mem_filter]
  · intro h1 h2
    have h3 : (fs.nodes.find? (fun e => e.1 == canon p)).isSome = true := by
      unfold FS.pathExists FS.lookupPath at h1
      cases hfind : fs.nodes.find? (fun e => e.1 == canon p) with
      | none => rw [hfind] at h1; simp at h1
      | some e => rfl
    constructor
    · simp [delete_path, fsRemove, h1, h2, h3]
    · intro e
      simp [delete_path, fsRemove, h1, h2, h3, List.mem_filter]

/-- C5 (witness): in `sampleFS`, deleting the absent `/zz` fails, deleting
the directory `/a` removes its 2-node subtree, deleting the file `/b`
reports count 1. -/
theorem c5_witness :
    sampleFS.pathExists ["zz"] = false ∧
    delete_path sampleFS ["zz"] = (sampleFS, DeleteResult.notFound) ∧
    sampleFS.pathExists ["a"] = true ∧
    sampleFS.isDir ["a"] = true ∧
    (delete_path sampleFS ["a"]).2 =
      DeleteResult.deleted
        ((sampleFS.nodes.filter (fun e => (canon ["a"]).isPrefixOf e.1)).length) ∧
    (delete_path sampleFS ["a"]).2 = DeleteResult.deleted 2 ∧
    sampleFS.pathExists ["b"] = true ∧
    sampleFS.isDir ["b"] = false ∧
    (delete_path sampleFS ["b"]).2 = DeleteResult.deleted 1 :=
  ⟨rfl, (c5_delete_path sampleFS ["zz"]).1 rfl, rfl, rfl,
   ((c5_delete_path sampleFS ["a"]).2.1 rfl rfl).1, by decide, rfl, rfl,
   ((c5_delete_path sampleFS ["b"]).2.2 rfl rfl).1⟩

/-- C6: `create_file` refuses with "already exists" when the path exists;
when the path is free but its parent directory is missing it fails and
creates nothing (in particular no parent directory); when the parent
exists it adds exactly one empty regular file at the canonical path and
reports success with the resolved path. -/
theorem c6_create_file (fs : FS) (p : List String) :
    (fs.pathExists p = true → create_file fs p = (fs, CreateResult.alreadyExists)) ∧
    (fs.pathExists p = false → fs.isDir (canon p).dropLast = false →
      create_file fs p = (fs, CreateResult.failed)) ∧
    (fs.pathExists p = false → fs.isDir (canon p).dropLast = true →
      (create_file fs p).2 = CreateResult.created p ∧
      ∀ e, e ∈ (create_file fs p).1.nodes ↔
        e = (canon p, Kind.file) ∨ e ∈ fs.nodes) := by
  refine ⟨?_, ?_, ?_⟩
  · intro h
    simp [create_file, h]
  · intro h1 h2
    simp [create_file, h1, h2]
  · intro h1 h2
    constructor
    · simp [create_file, h1, h2]
    · intro e
      simp [create_file, h1, h2]

/-- C6 (witness): in `sampleFS`, creating `/b` (existing) refuses,
creating `/c/x` (parent `/c` missing) fails without creating `/c`, and
creating `/a/g` succeeds. -/
theorem c6_witness :
    sampleFS.pathExists ["b"] = true ∧
    create_file sampleFS ["b"] = (sampleFS, CreateResult.alreadyExists) ∧
    sampleFS.pathExists ["c", "x"] = false ∧
    sampleFS.isDir (canon ["c", "x"]).dropLast = false ∧
    create_file sampleFS ["c", "x"] = (sampleFS, CreateResult.failed) ∧
    sampleFS.pathExists ["a", "g"] = false ∧
    sampleFS.isDir (canon ["a", "g"]).dropLast = true ∧
    (create_file sampleFS ["a", "g"]).2 = CreateResult.created ["a", "g"] :=
  ⟨rfl, (c6_create_file sampleFS ["b"]).1 rfl, rfl, rfl,
   (c6_create_file sampleFS ["c", "x"]).2.1 rfl rfl, rfl, rfl,
   ((c6_create_file sampleFS ["a", "g"]).2.2 rfl rfl).1⟩

/-- C4 (witness): `goUp` at the root and at the absolute path `/a`. -/
theorem c4_witness :
    (UPath.mk true ["a"]).absolute = true ∧
    (goUp rootPath = rootPath ∧
     goUp (UPath.mk true ["a"]) = parent_path (UPath.mk true ["a"])) :=
  ⟨rfl, c4_goUp (UPath.mk true ["a"]) rfl⟩

/-- C8: every command other than enter-directory (`"2"`) and go-up
(`"3"`) — listing, the five mutating operations, search, exit and invalid
input — leaves the current directory of the loop state unchanged. -/
theorem c8_cur_frame (st : LoopState) (choice : String) (inputs : List String)
    (st2 : LoopState) (k : Nat)
    (h2 : choice ≠ "2") (h3 : choice ≠ "3")
    (h : stepCommand st choice inputs = some (st2, k)) :
    st2.cur = st.cur := by
  rw [stepCommand] at h
  split_ifs at h <;>
    first
      | exact absurd (by assumption : choice = "2") h2
      | exact absurd (by assumption : choice = "3") h3
      | (simp only [withOnePath, withTwoPaths] at h
         split_ifs at h <;> (cases h; rfl))
      | (cases h; rfl)

/-- C8 (witness): a create-file command with an empty path line keeps the
current directory of `sampleState`. -/
theorem c8_witness :
    ("4" : String) ≠ "2" ∧ ("4" : String) ≠ "3" ∧
    stepCommand sampleState "4" [""] = some (sampleState, 1) ∧
    sampleState.cur = sampleState.cur :=
  ⟨by decide, by decide, rfl,
   c8_cur_frame sampleState "4" [""] sampleState 1 (by decide) (by decide) rfl⟩

/-- Auxiliary: the loop returns 0 on every input list, by strong
induction on the number of remaining lines. -/
theorem runLoop_eq_zero (n : Nat) :
    ∀ st inputs, List.length inputs ≤ n → runLoop st inputs = 0 := by
  induction n with
  | zero =>
    intro st inputs h
    have he : inputs = [] := List.eq_nil_of_length_eq_zero (Nat.le_zero.mp h)
    rw [he, runLoop]
  | succ n ih =>
    intro st inputs h
    match inputs with
    | [] => rw [runLoop]
    | choice :: rest =>
      rw [runLoop]
      cases hstep : stepCommand st choice rest with
      | none => rfl
      | some pr =>
        apply ih
        have hr : rest.length ≤ n := by
          simpa using Nat.lt_succ_iff.mp (Nat.lt_of_lt_of_le (by simp) h)
        calc (List.drop pr.2 rest).length ≤ rest.length := by
              rw [List.length_drop]; omega
          _ ≤ n := hr

/-- C9: on every finite input stream the command loop terminates — at the
exit command or at end-of-input — and `main` returns exit code 0; no
other exit code is produced. -/
theorem c9_exit_code (st : LoopState) (inputs : List String) :
    runLoop st inputs = 0 :=
  runLoop_eq_zero inputs.length st inputs (Nat.le_refl _)

/-- C10: an empty line at a path prompt cancels the command: the state
(current directory and file system) is untouched for enter-directory,
create-file, create-directory and delete, and likewise for copy and move
when either the source prompt or the destination prompt receives the
empty line. -/
theorem c10_empty_line_cancels (st : LoopState) (rest : List String)
    (s : String) (hs : s ≠ "") :
    stepCommand st "2" ("" :: rest) = some (st, 1) ∧
    stepCommand st "4" ("" :: rest) = some (st, 1) ∧
    stepCommand st "5" ("" :: rest) = some (st, 1) ∧
    stepCommand st "6" ("" :: rest) = some (st, 1) ∧
    stepCommand st "7" ("" :: rest) = some (st, 1) ∧
    stepCommand st "8" ("" :: rest) = some (st, 1) ∧
    stepCommand st "7" (s :: "" :: rest) = some (st, 2) ∧
    stepCommand st "8" (s :: "" :: rest) = some (st, 2) := by
  refine ⟨rfl, rfl, rfl, rfl, rfl, rfl, ?_, ?_⟩ <;>
    simp [stepCommand, withTwoPaths, line1, line2, hs]

/-- C10 (witness): with a non-empty source line `"x"` and an empty
destination line, copy and move cancel on `sampleState`. -/
theorem c10_witness :
    ("x" : String) ≠ "" ∧
    stepCommand sampleState "2" [""] = some (sampleState, 1) ∧
    stepCommand sampleState "7" ["x", ""] = some (sampleState, 2) :=
  ⟨by decide,
   (c10_empty_line_cancels sampleState [] "x" (by decide)).1,
   (c10_empty_line_cancels sampleState [] "x" (by decide)).2.2.2.2.2.2.1⟩

/-! ## Search characterisation (C7) -/

/-- Auxiliary: nothing is visited below a non-directory or an unreadable
directory, and nothing is visited at the empty relative path. -/
theorem visitedT_nil (t : FTree) : visitedT t [] = false := by
  simp [visitedT]

/-- Auxiliary: the entries visited below a readable directory are the
entries visited among its children. -/
theorem visitedT_dir_true (f : FForest) (rel : List String) :
    visitedT (FTree.dir true f) rel = visitedF f rel := by
  cases rel with
  | nil => simp [visitedT, visitedF]
  | cons n r => simp [visitedT]

/-- Auxiliary: a regular file has no visited entries below it. -/
theorem visitedT_file (rel : List String) : visitedT FTree.file rel = false := by
  cases rel <;> simp [visitedT]

/-- Auxiliary: a symbolic link has no visited entries below it. -/
theorem visitedT_link (rel : List String) : visitedT FTree.link rel = false := by
  cases rel <;> simp [visitedT]

/-- Auxiliary: an unreadable directory has no visited entries below it
(the iterator skips it). -/
theorem visitedT_dir_false (f : FForest) (rel : List String) :
    visitedT (FTree.dir false f) rel = false := by
  cases rel <;> simp [visitedT]

/-- Auxiliary: no entry is visited at the empty relative path below a
child list. -/
theorem visitedF_nil_rel (f : FForest) : visitedF f [] = false := by
  simp [visitedF]

/-- Auxiliary: an empty child list has no visited entries. -/
theorem visitedF_nil (rel : List String) : visitedF FForest.nil rel = false := by
  cases rel with
  | nil => simp [visitedF]
  | cons n r => simp [visitedF, lookupForest]

/-- Auxiliary: a successful child lookup means the name occurs in the
child-name list. -/
theorem lookupForest_mem_names : ∀ (f : FForest) (n : String) (t : FTree),
    lookupForest f n = some t → n ∈ forestNames f
  | FForest.nil, n, t, h => by simp [lookupForest] at h
  | FForest.cons m t2 rest, n, t, h => by
    rw [lookupForest] at h
    rw [forestNames]
    by_cases hm : m = n
    · subst hm
      exact List.mem_cons_self m _
    · rw [if_neg hm] at h
      exact List.mem_cons_of_mem m (lookupForest_mem_names rest n t h)

/-- Auxiliary: a visited entry path starts with a child name. -/
theorem visitedF_head_mem (f : FForest) (m : String) (r : List String)
    (h : visitedF f (m :: r) = true) : m ∈ forestNames f := by
  simp only [visitedF] at h
  cases hlk : lookupForest f m with
  | none => rw [hlk] at h; cases h
  | some t => exact lookupForest_mem_names f m t hlk

/-- Auxiliary: visiting through a child list whose head name differs from
the path's head component only looks at the tail of the list. -/
theorem visitedF_cons_ne (name : String) (t : FTree) (rest : FForest)
    (m : String) (r : List String) (hm : name ≠ m) :
    visitedF (FForest.cons name t rest) (m :: r) = visitedF rest (m :: r) := by
  simp only [visitedF, lookupForest]
  rw [if_neg hm]

/-- Auxiliary: visiting through a child list at its head name inspects
the head subtree. -/
theorem visitedF_cons_self (name : String) (t : FTree) (rest : FForest)
    (r : List String) :
    visitedF (FForest.cons name t rest) (name :: r) =
      (r.isEmpty || visitedT t r) := by
  simp [visitedF, lookupForest]

/-- Auxiliary: splitting the no-duplicate-names invariant at a cons. -/
theorem nodupNamesF_cons (n : String) (t : FTree) (rest : FForest) :
    nodupNamesF (FForest.cons n t rest) = true ↔
      n ∉ forestNames rest ∧ nodupNamesT t = true ∧ nodupNamesF rest = true := by
  rw [nodupNamesF]
  simp [Bool.and_eq_true, Bool.not_eq_true', decide_eq_false_iff_not, and_assoc]

mutual
/-- Auxiliary (C7, membership): below a tree with distinct child names,
the search output at prefix `pre` contains exactly the paths `pre ++ rel`
of visited entries whose final component contains the needle. -/
theorem mem_searchTree (needle : String) (t : FTree) (pre q : List String)
    (hnd : nodupNamesT t = true) :
    q ∈ searchTree needle pre t ↔
      ∃ rel, q = pre ++ rel ∧ visitedT t rel = true ∧
        containsSub (q.getLastD "") needle = true := by
  cases t with
  | file => simp [searchTree, visitedT_file]
  | link => simp [searchTree, visitedT_link]
  | dir b f =>
    cases b with
    | false => simp [searchTree, visitedT_dir_false]
    | true =>
      simp only [nodupNamesT] at hnd
      simp only [searchTree]
      simp only [visitedT_dir_true]
      exact mem_searchForest needle f pre q hnd

/-- Auxiliary (C7, membership, child-list form). -/
theorem mem_searchForest (needle : String) (f : FForest) (pre q : List String)
    (hnd : nodupNamesF f = true) :
    q ∈ searchForest needle pre f ↔
      ∃ rel, q = pre ++ rel ∧ visitedF f rel = true ∧
        containsSub (q.getLastD "") needle = true := by
  cases f with
  | nil => simp [searchForest, visitedF_nil]
  | cons name t rest =>
    obtain ⟨hn, ht, hr⟩ := (nodupNamesF_cons name t rest).mp hnd
    simp only [searchForest]
    rw [List.mem_append, List.mem_append]
    constructor
    · rintro ((h1 | h2) | h3)
      · by_cases hc : containsSub name needle = true
        · rw [if_pos hc] at h1
          rw [List.mem_singleton] at h1
          subst h1
          refine ⟨[name], rfl, ?_, ?_⟩
          · rw [visitedF_cons_self]
            rfl
          · rw [List.getLastD_concat]
            exact hc
        · rw [if_neg hc] at h1
          cases h1
      · obtain ⟨rel2, hq, hv, hc⟩ :=
          (mem_searchTree needle t (pre ++ [name]) q ht).mp h2
        refine ⟨name :: rel2, ?_, ?_, hc⟩
        · rw [hq, List.append_assoc]
          rfl
        · rw [visitedF_cons_self, hv, Bool.or_true]
      · obtain ⟨rel, hq, hv, hc⟩ :=
          (mem_searchForest needle rest pre q hr).mp h3
        cases rel with
        | nil => rw [visitedF_nil_rel] at hv; cases hv
        | cons m r =>
          have hm : name ≠ m := by
            intro he
            subst he
            exact hn (visitedF_head_mem rest name r hv)
          refine ⟨m :: r, hq, ?_, hc⟩
          rw [visitedF_cons_ne name t rest m r hm]
          exact hv
    · rintro ⟨rel, hq, hv, hc⟩
      cases rel with
      | nil => rw [visitedF_nil_rel] at hv; cases hv
      | cons m r =>
        by_cases hm : name = m
        · subst hm
          rw [visitedF_cons_self] at hv
          cases hre : r.isEmpty with
          | true =>
            have hrn : r = [] := by
              cases r with
              | nil => rfl
              | cons a as => cases hre
            subst hrn
            left
            left
            have hcc : containsSub name needle = true := by
              rw [hq, List.getLastD_concat] at hc
              exact hc
            rw [if_pos hcc, List.mem_singleton]
            exact hq
          | false =>
            rw [hre, Bool.false_or] at hv
            left
            right
            refine (mem_searchTree needle t (pre ++ [name]) q ht).mpr
              ⟨r, ?_, hv, hc⟩
            rw [hq, List.append_assoc]
            rfl
        · right
          rw [visitedF_cons_ne name t rest m r hm] at hv
          exact (mem_searchForest needle rest pre q hr).mpr ⟨m :: r, hq, hv, hc⟩
end

mutual
/-- Auxiliary (C7, no duplicates): below a tree with distinct child
names, the search output has no duplicate paths. -/
theorem nodup_searchTree (needle : String) (t : FTree) (pre : List String)
    (hnd : nodupNamesT t = true) : (searchTree needle pre t).Nodup := by
  cases t with
  | file => simp [searchTree]
  | link => simp [searchTree]
  | dir b f =>
    cases b with
    | false => simp [searchTree]
    | true =>
      simp only [nodupNamesT] at hnd
      simp only [searchTree]
      exact nodup_searchForest needle f pre hnd

/-- Auxiliary (C7, no duplicates, child-list form). -/
theorem nodup_searchForest (needle : String) (f : FForest) (pre : List String)
    (hnd : nodupNamesF f = true) : (searchForest needle pre f).Nodup := by
  cases f with
  | nil => simp [searchForest]
  | cons name t rest =>
    obtain ⟨hn, ht, hr⟩ := (nodupNamesF_cons name t rest).mp hnd
    simp only [searchForest]
    have hT : (searchTree needle (pre ++ [name]) t).Nodup :=
      nodup_searchTree needle t (pre ++ [name]) ht
    have hF : (searchForest needle pre rest).Nodup :=
      nodup_searchForest needle rest pre hr
    have d1 : (if containsSub name needle then [pre ++ [name]]
        else ([] : List (List String))).Disjoint
        (searchTree needle (pre ++ [name]) t) := by
      intro q hq1 hq2
      obtain ⟨rel, heq, hv, hc⟩ :=
        (mem_searchTree needle t (pre ++ [name]) q ht).mp hq2
      have hq : q = pre ++ [name] := by
        by_cases hcc : containsSub name needle = true
        · rw [if_pos hcc, List.mem_singleton] at hq1
          exact hq1
        · rw [if_neg hcc] at hq1
          cases hq1
      rw [hq] at heq
      have h0 : (pre ++ [name]) ++ ([] : List String) = (pre ++ [name]) ++ rel := by
        rw [List.append_nil]
        exact heq
      have hrel : ([] : List String) = rel := List.append_cancel_left h0
      rw [← hrel, visitedT_nil] at hv
      cases hv
    have d2 : (if containsSub name needle then [pre ++ [name]]
        else ([] : List (List String))).Disjoint
        (searchForest needle pre rest) := by
      intro q hq1 hq2
      obtain ⟨rel, heq, hv, hc⟩ :=
        (mem_searchForest needle rest pre q hr).mp hq2
      have hq : q = pre ++ [name] := by
        by_cases hcc : containsSub name needle = true
        · rw [if_pos hcc, List.mem_singleton] at hq1
          exact hq1
        · rw [if_neg hcc] at hq1
          cases hq1
      cases rel with
      | nil => rw [visitedF_nil_rel] at hv; cases hv
      | cons m r =>
        have hm : m ∈ forestNames rest := visitedF_head_mem rest m r hv
        rw [hq] at heq
        have hcons : [name] = m :: r := List.append_cancel_left heq
        injection hcons with hnm hrr
        rw [← hnm] at hm
        exact hn hm
    have d3 : (searchTree needle (pre ++ [name]) t).Disjoint
        (searchForest needle pre rest) := by
      intro q hq1 hq2
      obtain ⟨rel1, heq1, hv1, hc1⟩ :=
        (mem_searchTree needle t (pre ++ [name]) q ht).mp hq1
      obtain ⟨rel2, heq2, hv2, hc2⟩ :=
        (mem_searchForest needle rest pre q hr).mp hq2
      cases rel2 with
      | nil => rw [visitedF_nil_rel] at hv2; cases hv2
      | cons m r =>
        have hm : m ∈ forestNames rest := visitedF_head_mem rest m r hv2
        rw [heq1] at heq2
        rw [List.append_assoc, List.singleton_append] at heq2
        have hcons : name :: rel1 = m :: r := List.append_cancel_left heq2
        injection hcons with hnm hrr
        rw [← hnm] at hm
        exact hn hm
    refine List.Nodup.append (List.Nodup.append ?_ hT d1) hF ?_
    · split
      · simp
      · simp
    · rw [List.disjoint_append_left]
      exact ⟨d2, d3⟩
end

/-- C7: over any directory tree with distinct child names (what a real
file system guarantees) and any non-empty needle, the recursive search
started at prefix `pre` produces exactly the full paths of entries the
`skip_permission_denied` walk visits — every directory on the way down
must be readable, permission-denied subtrees are skipped rather than
aborting the walk — whose final path component contains the needle as a
case-sensitive substring; and the produced list is duplicate-free. -/
theorem c7_search (needle : String) (hne : needle ≠ "") (pre : List String)
    (t : FTree) (hnd : nodupNamesT t = true) :
    (∀ q, q ∈ searchTree needle pre t ↔
      ∃ rel, q = pre ++ rel ∧ visitedT t rel = true ∧
        containsSub (q.getLastD "") needle = true) ∧
    (searchTree needle pre t).Nodup :=
  ⟨fun q => mem_searchTree needle t pre q hnd, nodup_searchTree needle t pre hnd⟩

/-- C7 (witness): on the spec's example tree (children `x/abc.txt`,
`y/zzabc`, `z/noMatch`) with needle `"abc"`, the path `root/x/abc.txt` is
produced and the output is duplicate-free. -/
theorem c7_witness :
    ("abc" : String) ≠ "" ∧ nodupNamesT exampleTree = true ∧
    ["root", "x", "abc.txt"] ∈ searchTree "abc" ["root"] exampleTree ∧
    (searchTree "abc" ["root"] exampleTree).Nodup := by
  have hnd : nodupNamesT exampleTree = true := by
    simp [exampleTree, nodupNamesT, nodupNamesF, forestNames]
  refine ⟨by decide, hnd, ?_, (c7_search "abc" (by decide) ["root"] exampleTree hnd).2⟩
  refine ((c7_search "abc" (by decide) ["root"] exampleTree hnd).1
    ["root", "x", "abc.txt"]).mpr ⟨["x", "abc.txt"], rfl, ?_, by decide⟩
  simp [exampleTree, visitedT, visitedF, lookupForest]
